import Mathlib

/-!
Verification development for the avrodisiac Avro schema linter.

The program (src/main.rs) is a command-line front end with two commands,
`lint` and `compat`.  Its own code consists of directory traversal
(`visit_dirs`), document collection and parsing (`parse_schemas`,
`validate_schemas`) and the per-name comparison loop (`compare_schemas`);
schema parsing/resolution (`Schema::parse_list`) and the pairwise
reader/writer compatibility check (`SchemaCompatibility::can_read`,
`SchemaCompatibility::mutual_read`) are delegated to the Avro library and
are modelled here from the specification (spec §3, §4.1–§4.3).
-/

namespace Avrodisiac

/-- JSON values as decoded from a schema document.  The spec (§4.1) states
that a parser input "is a JSON value"; a document that is not valid JSON is
represented by the separate `Document.notJson` constructor below. -/
inductive JValue where
  | jnull
  | jbool (b : Bool)
  | jnum (n : Int)
  | jstr (s : String)
  | jarr (items : List JValue)
  | jobj (members : List (String × JValue))

/-- Field sort order (spec §3: optional ascending / descending / ignore). -/
inductive FieldOrder where
  | ascending
  | descending
  | ignore
deriving DecidableEq, Repr

mutual
/-- Modelled from the spec: the Schema data model of §3 — primitives,
`Fixed{fullname, size}`, `Enum{fullname, symbols, default}`, `Array`, `Map`,
`Union{branches}`, `Record{fullname, fields}` and `Reference{fullname}`
(a not-yet-resolved or recursive pointer to a named type).  The concrete
Rust type lives in the apache_avro library, not in src/. -/
inductive Schema where
  | null
  | boolean
  | int
  | long
  | float
  | double
  | bytes
  | string
  | fixed (fullname : String) (size : Nat)
  | enum (fullname : String) (symbols : List String) (defaultSym : Option String)
  | array (items : Schema)
  | map (values : Schema)
  | union (branches : List Schema)
  | record (fullname : String) (fields : List Field)
  | reference (fullname : String)

/-- Modelled from the spec: a record field (§3) —
`{name, doc, type, default, order}`. -/
inductive Field where
  | mk (name : String) (doc : Option String) (ftype : Schema)
       (fdefault : Option JValue) (order : Option FieldOrder)
end

/-- Name of a field. -/
def Field.name : Field → String
  | .mk n _ _ _ _ => n

/-- Declared type of a field. -/
def Field.ftype : Field → Schema
  | .mk _ _ t _ _ => t

/-- Default value of a field, when declared. -/
def Field.fdefault : Field → Option JValue
  | .mk _ _ _ d _ => d

/-- Mirrors `Schema::name()` of the Avro library: named schemas (fixed,
enum, record) and named references carry a name, primitives and containers
do not.  `compare_schemas` (src/main.rs 83–84) unwraps this option with
`expect`, so its `None` case is what makes the matched-name lookup able to
panic. -/
def Schema.name? : Schema → Option String
  | .fixed n _ => some n
  | .enum n _ _ => some n
  | .record n _ => some n
  | .reference n => some n
  | _ => none

/-- Short tag for a schema kind, used in `typeMismatch` diagnostics
(spec §7: errors carry "expected vs actual type"). -/
def Schema.kindName : Schema → String
  | .null => "null"
  | .boolean => "boolean"
  | .int => "int"
  | .long => "long"
  | .float => "float"
  | .double => "double"
  | .bytes => "bytes"
  | .string => "string"
  | .fixed _ _ => "fixed"
  | .enum _ _ _ => "enum"
  | .array _ => "array"
  | .map _ => "map"
  | .union _ => "union"
  | .record _ _ => "record"
  | .reference _ => "ref"

/-- Kinds of pairwise incompatibility (spec §7 taxonomy: `MissingField`,
`UnknownEnumSymbol`, `TypeMismatch`; `SchemaRemoved` arises at the
cross-set level, see `CompatError`). -/
inductive Reason where
  | missingField (fieldName : String)
  | unknownEnumSymbol (symbol : String)
  | typeMismatch (writerKind readerKind : String)
deriving DecidableEq, Repr

/-- Modelled from the spec: a compatibility verdict's `Incompatible{path,
reason}` payload (§3), with `path` the sequence of record field names on the
way to the first structural mismatch found. -/
structure Incompat where
  path : List String
  reason : Reason
deriving DecidableEq, Repr

/-- Modelled from the spec: the primitive promotion lattice of §4.3 —
the writer's numeric type is safely promotable to the reader's per
`int → long → float → double`, and `string ↔ bytes`. -/
def promotable : Schema → Schema → Bool
  | .int, .long => true
  | .int, .float => true
  | .int, .double => true
  | .long, .float => true
  | .long, .double => true
  | .float, .double => true
  | .string, .bytes => true
  | .bytes, .string => true
  | _, _ => false

/-- Identity of primitive schemas (spec §4.3: primitive vs primitive is
compatible iff identical, apart from promotions). -/
def samePrimitive : Schema → Schema → Bool
  | .null, .null => true
  | .boolean, .boolean => true
  | .int, .int => true
  | .long, .long => true
  | .float, .float => true
  | .double, .double => true
  | .bytes, .bytes => true
  | .string, .string => true
  | _, _ => false

mutual
/-- Modelled from the spec: the structural reader/writer compatibility
check of §4.3, with the writer schema as first argument and the reader
schema as second.  The rules, in the order tried: writer unions require
every branch to be readable; a reader union accepts a writer readable by at
least one branch (first structural match wins); records are checked field
by field by `recordReadF`; enums require the writer's symbols to be a
subset of the reader's unless the reader declares a default symbol; arrays
and maps recurse on the contained type; fixed requires the same fullname
and size; references are compared by fullname (§4.3 named-type identity:
an entered fullname pair is treated as provisionally compatible, so in a
resolved set a reference comparison is nominal — the registry-lookup
descent is not re-entered); everything else is compatible iff an identical
primitive or a safe promotion.  The `Nat` argument is recursion fuel: every
recursive call strictly decreases the summed `sizeOf` of the schema
arguments, so the wrapper `canRead` below supplies fuel that makes the
exhaustion branch unreachable. -/
def canReadF : Nat → Schema → Schema → Option Incompat
  | 0, w, r => some ⟨[], .typeMismatch w.kindName r.kindName⟩
  | fuel+1, w, r =>
    match w, r with
    | .union bs, rr => allBranchesReadF fuel bs rr
    | ww, .union bs =>
      if anyBranchReadsF fuel ww bs then none
      else some ⟨[], .typeMismatch ww.kindName "union"⟩
    | .record _ wfs, .record _ rfs => recordReadF fuel wfs rfs
    | .enum _ wsyms _, .enum _ rsyms rdef =>
      match wsyms.find? (fun s => !(rsyms.contains s)) with
      | none => none
      | some s => if rdef.isSome then none else some ⟨[], .unknownEnumSymbol s⟩
    | .array wi, .array ri => canReadF fuel wi ri
    | .map wv, .map rv => canReadF fuel wv rv
    | .fixed wn wsz, .fixed rn rsz =>
      if wn == rn && wsz == rsz then none
      else some ⟨[], .typeMismatch "fixed" "fixed"⟩
    | .reference wn, .reference rn =>
      if wn == rn then none
      else some ⟨[], .typeMismatch ("ref " ++ wn) ("ref " ++ rn)⟩
    | ww, rr =>
      if samePrimitive ww rr || promotable ww rr then none
      else some ⟨[], .typeMismatch ww.kindName rr.kindName⟩

/-- Modelled from the spec: the record rule of §4.3 — for each field of the
reader, the writer must supply a field of the same name whose type is
recursively compatible, or the reader field must declare a default; a
reader field with neither is `MissingField`.  Writer fields absent from the
reader are ignored.  A failing field prepends its name to the error path. -/
def recordReadF : Nat → List Field → List Field → Option Incompat
  | 0, _, _ => some ⟨[], .typeMismatch "record" "record"⟩
  | _+1, _, [] => none
  | fuel+1, wfs, rf :: rest =>
    match wfs.find? (fun wf => wf.name == rf.name) with
    | some wf =>
      match canReadF fuel wf.ftype rf.ftype with
      | some inc => some ⟨rf.name :: inc.path, inc.reason⟩
      | none => recordReadF fuel wfs rest
    | none =>
      if rf.fdefault.isSome then recordReadF fuel wfs rest
      else some ⟨[rf.name], .missingField rf.name⟩

/-- Modelled from the spec: writer-union rule of §4.3 — every branch of a
writer union must be individually readable by the reader. -/
def allBranchesReadF : Nat → List Schema → Schema → Option Incompat
  | 0, _, r => some ⟨[], .typeMismatch "union" r.kindName⟩
  | _+1, [], _ => none
  | fuel+1, b :: bs, r =>
    match canReadF fuel b r with
    | some inc => some inc
    | none => allBranchesReadF fuel bs r

/-- Modelled from the spec: reader-union rule of §4.3 — the writer must be
readable by at least one reader branch. -/
def anyBranchReadsF : Nat → Schema → List Schema → Bool
  | 0, _, _ => false
  | _+1, _, [] => false
  | fuel+1, w, b :: bs => (canReadF fuel w b).isNone || anyBranchReadsF fuel w bs
end

mutual
/-- Structural size of a schema tree, used as recursion fuel for the
fueled functions of this development. -/
def Schema.fuelBound : Schema → Nat
  | .array i => Schema.fuelBound i + 1
  | .map v => Schema.fuelBound v + 1
  | .union bs => Schema.fuelBoundList bs + 1
  | .record _ fs => Schema.fuelBoundFields fs + 1
  | _ => 1

/-- Structural size of a list of schemas. -/
def Schema.fuelBoundList : List Schema → Nat
  | [] => 1
  | b :: bs => Schema.fuelBound b + Schema.fuelBoundList bs + 1

/-- Structural size of a list of record fields. -/
def Schema.fuelBoundFields : List Field → Nat
  | [] => 1
  | .mk _ _ t _ _ :: fs => Schema.fuelBound t + Schema.fuelBoundFields fs + 1
end

/-- Modelled from the spec: `SchemaCompatibility::can_read(writer, reader)`
of §4.3, invoked by `compare_schemas` (src/main.rs 89).  Returns `none`
when the reader can read data written with the writer schema.  The fuel
bound dominates the recursion depth of `canReadF`: every recursive call of
the fueled functions strictly decreases the summed structural sizes of
their schema arguments, so with this bound the exhaustion branches are
never taken. -/
def canRead (w r : Schema) : Option Incompat :=
  canReadF (Schema.fuelBound w + Schema.fuelBound r) w r

/-- Modelled from the spec: `SchemaCompatibility::mutual_read` of §4.3 —
compatibility in both reader/writer directions, failing fast on the first
direction that fails. -/
def mutualRead (a b : Schema) : Option Incompat :=
  match canRead a b with
  | some inc => some inc
  | none => canRead b a

/-- Structured errors returned (as `anyhow::Result`) by the comparison loop
of `compare_schemas`: a pairwise incompatibility propagated by `?`, or the
`bail!("schema {:?} does not exist anymore", ...)` for a name present in
the old set but absent from the new one (src/main.rs 90–92).  The removed
name is the `Option` produced by `Schema::name()`, exactly as the code
debug-prints it. -/
inductive CompatError where
  | incompatible (inc : Incompat)
  | removed (name : Option String)
deriving DecidableEq, Repr

/-- Result of running a program fragment, distinguishing a returned
structured error from a process panic (Rust `expect`/`panic!`). -/
inductive Outcome (ε : Type) (α : Type) where
  | ok (a : α)
  | err (e : ε)
  | panicked (msg : String)
deriving DecidableEq, Repr

/-- Matched-name lookup of `compare_schemas` (src/main.rs 80–86):
`new_schemas.iter().filter(|s| s.name().expect("no name on new schema") ==
schema.name().expect("no name on old schema")).next()`.  The iterator is
lazy, so names are unwrapped element by element — the new schema's name
first, then the old schema's — and an unnamed schema panics (modelled as
`Except.error` carrying the panic message) only if it is reached before a
match is found. -/
def findMatch (old : Schema) (news : List Schema) : Except String (Option Schema) :=
  match news with
  | [] => .ok none
  | n :: rest =>
    match n.name? with
    | none => .error "no name on new schema"
    | some nn =>
      match old.name? with
      | none => .error "no name on old schema"
      | some onm => if nn == onm then .ok (some n) else findMatch old rest

/-- Per-schema comparison loop of `compare_schemas` (src/main.rs 79–95):
for each schema of the old set, find the first schema of the new set with
the same name; check `mutual_read` or `can_read` according to the flag,
propagating the first failure with `?`; bail out when no name matches. -/
def compareLoop (olds news : List Schema) (mutualFlag : Bool) :
    Outcome CompatError Unit :=
  match olds with
  | [] => .ok ()
  | s :: rest =>
    match findMatch s news with
    | .error msg => .panicked msg
    | .ok none => .err (.removed s.name?)
    | .ok (some n) =>
      match (if mutualFlag then mutualRead s n else canRead s n) with
      | some inc => .err (.incompatible inc)
      | none => compareLoop rest news mutualFlag

/-- Modelled from the spec: the parse-time error taxonomy of §7 —
`MalformedJson`, `UnknownType`, `InvalidField`, `DuplicateName`,
`UnresolvedReference`.  Payloads carry the offending name or a short
detail string. -/
inductive ParseError where
  | malformedJson
  | unknownType (detail : String)
  | invalidField (detail : String)
  | duplicateName (fullname : String)
  | unresolvedReference (fullname : String)
deriving DecidableEq, Repr

/-- One raw schema document as handed to the §4.2 resolver.  The spec
(§4.1) reads a document as a JSON value; a document whose text is not
valid JSON is `notJson`, carrying its raw text, and parses to
`MalformedJson`.  The JSON decoding step itself is outside this model. -/
inductive Document where
  | json (v : JValue)
  | notJson (raw : String)

mutual
/-- Structural size of a JSON value, used as parser fuel. -/
def JValue.fuelBound : JValue → Nat
  | .jarr items => JValue.fuelBoundList items + 1
  | .jobj members => JValue.fuelBoundMembers members + 1
  | _ => 1

/-- Structural size of a list of JSON values. -/
def JValue.fuelBoundList : List JValue → Nat
  | [] => 1
  | v :: vs => JValue.fuelBound v + JValue.fuelBoundList vs + 1

/-- Structural size of a JSON object's member list. -/
def JValue.fuelBoundMembers : List (String × JValue) → Nat
  | [] => 1
  | (_, v) :: ms => JValue.fuelBound v + JValue.fuelBoundMembers ms + 1
end

/-- First member of a JSON object with the given key, if any. -/
def lookupMember (members : List (String × JValue)) (key : String) : Option JValue :=
  match members.find? (fun m => m.1 == key) with
  | some m => some m.2
  | none => none

/-- Recognized primitive type names (spec §3). -/
def primitiveOf : String → Option Schema
  | "null" => some .null
  | "boolean" => some .boolean
  | "int" => some .int
  | "long" => some .long
  | "float" => some .float
  | "double" => some .double
  | "bytes" => some .bytes
  | "string" => some .string
  | _ => none

/-- Splitting of a character list at every dot, mirroring
`String.splitOn "."`: `"a.b"` gives `["a", "b"]`, a leading, trailing or
doubled dot gives an empty part, and the empty input gives one empty
part. -/
def splitOnDot : List Char → List (List Char)
  | [] => [[]]
  | c :: rest =>
    if c = '.' then [] :: splitOnDot rest
    else
      match splitOnDot rest with
      | [] => [[c]]
      | p :: ps => (c :: p) :: ps

/-- Joining of character-list parts with dots, the inverse of
`splitOnDot`. -/
def joinDots : List (List Char) → List Char
  | [] => []
  | [p] => p
  | p :: ps => p ++ '.' :: joinDots ps

/-- Modelled from the spec: fullname computation (§3) — `namespace + "." +
name` when a namespace is present, else the bare name; a name that already
contains a dot is itself a fullname. -/
def mkFullname (ns nm : String) : String :=
  if nm.data.contains '.' then nm
  else if ns == "" then nm else ns ++ "." ++ nm

/-- Namespace part of a fullname: everything before the last dot, or the
empty namespace for an undotted name.  Used for the namespace a named type
passes on to nested named types (spec §4.1). -/
def namespaceOfFullname (fn : String) : String :=
  match splitOnDot fn.data with
  | [] => ""
  | [_] => ""
  | parts => String.mk (joinDots parts.dropLast)

/-- Value of the `name` attribute of a type object, when it is a string. -/
def nameAttr (members : List (String × JValue)) : Option String :=
  match lookupMember members "name" with
  | some (.jstr n) => some n
  | _ => none

/-- Value of the `namespace` attribute when present as a string, else the
inherited namespace (spec §4.1: own attribute first, else inherited from
the innermost enclosing named type, else empty). -/
def nsAttr (members : List (String × JValue)) (inherited : String) : String :=
  match lookupMember members "namespace" with
  | some (.jstr s) => s
  | _ => inherited

/-- First name occurring more than once in the list, if any. -/
def firstDup : List String → Option String
  | [] => none
  | x :: xs => if xs.contains x then some x else firstDup xs

/-- All symbols of an enum's `symbols` array, provided all are strings. -/
def symbolStrings : List JValue → Option (List String)
  | [] => some []
  | .jstr s :: rest => (symbolStrings rest).map (fun ss => s :: ss)
  | _ => none

/-- Parsed `order` attribute of a field (spec §3). -/
def orderAttr : Option JValue → Except ParseError (Option FieldOrder)
  | none => .ok none
  | some (.jstr "ascending") => .ok (some .ascending)
  | some (.jstr "descending") => .ok (some .descending)
  | some (.jstr "ignore") => .ok (some .ignore)
  | some _ => .error (.invalidField "invalid order attribute")

/-- Modelled from the spec: default-compatibility of a field default with
its declared type (§4.1 `InvalidField`: "a field's default value does not
match the declared type's default-compatibility rules (e.g., a null
default on a non-nullable type)").  A union default is checked against the
first branch; JSON containers are checked shallowly; fixed and unresolved
references accept any default at parse time. -/
def defaultMatches : JValue → Schema → Bool
  | .jnull, .null => true
  | .jbool _, .boolean => true
  | .jnum _, .int => true
  | .jnum _, .long => true
  | .jnum _, .float => true
  | .jnum _, .double => true
  | .jstr _, .string => true
  | .jstr _, .bytes => true
  | .jstr sy, .enum _ syms _ => syms.contains sy
  | .jarr _, .array _ => true
  | .jobj _, .map _ => true
  | .jobj _, .record _ _ => true
  | v, .union (b :: _) => defaultMatches v b
  | _, .union [] => false
  | _, .fixed _ _ => true
  | _, .reference _ => true
  | _, _ => false

mutual
/-- Modelled from the spec: the schema parser of §4.1 in its multi-document
mode (the mode `Schema::parse_list` uses): the input is a JSON value whose
top level may be a primitive type name, a type object, or a union array; a
type name that is not a recognized primitive becomes a `Reference` to be
checked by pass 2 of §4.2 (single-document `UnknownType` detection defers
to §4.2 for document sets).  A JSON value that cannot be a schema (a bare
number, boolean or null, or an object without a string `type`) fails with
`UnknownType`.  The `Nat` argument is recursion fuel; every recursive call
descends to a strict subterm of the JSON value, so the `JValue.fuelBound`
supplied by `parseDoc` makes the exhaustion branch unreachable. -/
def parseSchemaF : Nat → String → JValue → Except ParseError Schema
  | 0, _, _ => .error (.unknownType "recursion limit")
  | fuel+1, ns, v =>
    match v with
    | .jstr s =>
      match primitiveOf s with
      | some p => .ok p
      | none => .ok (.reference (mkFullname ns s))
    | .jarr items =>
      match parseUnionF fuel ns items with
      | .error e => .error e
      | .ok bs => .ok (.union bs)
    | .jobj members =>
      match lookupMember members "type" with
      | some (.jstr t) => parseObjectF fuel ns t members
      | some _ => .error (.unknownType "type attribute is not a string")
      | none => .error (.unknownType "missing type attribute")
    | _ => .error (.unknownType "schema json must be a string, object or array")

/-- Modelled from the spec: a type object with string `type` attribute `t`
(spec §4.1, §6 grammar: `type`, `name`, `namespace`, `fields`, `symbols`,
`items`, `values`, `size`, `default`, `doc`, `order`).  A record or enum
without a `name`, without its required member list, with duplicate field
names (spec §3 invariant) or with a bad attribute shape is `InvalidField`;
an unrecognized `t` is a named `Reference`. -/
def parseObjectF : Nat → String → String → List (String × JValue) →
    Except ParseError Schema
  | 0, _, _, _ => .error (.unknownType "recursion limit")
  | fuel+1, ns, t, members =>
    match primitiveOf t with
    | some p => .ok p
    | none =>
      if t == "record" then
        match nameAttr members with
        | none => .error (.invalidField "record without a name")
        | some nm =>
          let fn := mkFullname (nsAttr members ns) nm
          match lookupMember members "fields" with
          | some (.jarr fieldVals) =>
            match parseFieldsF fuel (namespaceOfFullname fn) fieldVals with
            | .error e => .error e
            | .ok fields =>
              match firstDup (fields.map Field.name) with
              | some d => .error (.invalidField ("duplicate field " ++ d))
              | none => .ok (.record fn fields)
          | _ => .error (.invalidField "record without a fields array")
      else if t == "enum" then
        match nameAttr members with
        | none => .error (.invalidField "enum without a name")
        | some nm =>
          let fn := mkFullname (nsAttr members ns) nm
          match lookupMember members "symbols" with
          | some (.jarr symVals) =>
            match symbolStrings symVals with
            | none => .error (.invalidField "enum symbols must be strings")
            | some syms =>
              match lookupMember members "default" with
              | none => .ok (.enum fn syms none)
              | some (.jstr d) => .ok (.enum fn syms (some d))
              | some _ => .error (.invalidField "enum default must be a string")
          | _ => .error (.invalidField "enum without a symbols array")
      else if t == "fixed" then
        match nameAttr members with
        | none => .error (.invalidField "fixed without a name")
        | some nm =>
          let fn := mkFullname (nsAttr members ns) nm
          match lookupMember members "size" with
          | some (.jnum sz) =>
            if sz < 0 then .error (.invalidField "fixed size must be nonnegative")
            else .ok (.fixed fn sz.toNat)
          | _ => .error (.invalidField "fixed without a numeric size")
      else if t == "array" then
        match lookupMember members "items" with
        | some itemsJson =>
          match parseSchemaF fuel ns itemsJson with
          | .error e => .error e
          | .ok s => .ok (.array s)
        | none => .error (.invalidField "array without items")
      else if t == "map" then
        match lookupMember members "values" with
        | some valuesJson =>
          match parseSchemaF fuel ns valuesJson with
          | .error e => .error e
          | .ok s => .ok (.map s)
        | none => .error (.invalidField "map without values")
      else
        .ok (.reference (mkFullname ns t))

/-- Modelled from the spec: the fields of a record (§3, §4.1): each field
is an object with a required `name` (else `InvalidField`), a `type` parsed
recursively under the record's namespace, and optional `doc`, `default`
(checked by `defaultMatches`) and `order` attributes. -/
def parseFieldsF : Nat → String → List JValue → Except ParseError (List Field)
  | 0, _, _ => .error (.unknownType "recursion limit")
  | _+1, _, [] => .ok []
  | fuel+1, ns, fv :: rest =>
    match fv with
    | .jobj fmembers =>
      match nameAttr fmembers with
      | none => .error (.invalidField "field without a name")
      | some fname =>
        match lookupMember fmembers "type" with
        | none => .error (.invalidField ("field " ++ fname ++ " without a type"))
        | some tj =>
          match parseSchemaF fuel ns tj with
          | .error e => .error e
          | .ok ft =>
            let doc := match lookupMember fmembers "doc" with
              | some (.jstr d) => some d
              | _ => none
            let fdef := lookupMember fmembers "default"
            match orderAttr (lookupMember fmembers "order") with
            | .error e => .error e
            | .ok ord =>
              match fdef with
              | some dv =>
                if defaultMatches dv ft then
                  match parseFieldsF fuel ns rest with
                  | .error e => .error e
                  | .ok fs => .ok (.mk fname doc ft fdef ord :: fs)
                else .error (.invalidField ("bad default on field " ++ fname))
              | none =>
                match parseFieldsF fuel ns rest with
                | .error e => .error e
                | .ok fs => .ok (.mk fname doc ft fdef ord :: fs)
    | _ => .error (.invalidField "field is not an object")

/-- Modelled from the spec: the branches of a union array, parsed in
order (§6: unions as JSON arrays of type entries). -/
def parseUnionF : Nat → String → List JValue → Except ParseError (List Schema)
  | 0, _, _ => .error (.unknownType "recursion limit")
  | _+1, _, [] => .ok []
  | fuel+1, ns, bv :: rest =>
    match parseSchemaF fuel ns bv with
    | .error e => .error e
    | .ok b =>
      match parseUnionF fuel ns rest with
      | .error e => .error e
      | .ok bs => .ok (b :: bs)
end

/-- Modelled from the spec: parsing one document of a document set (§4.1
with the multi-document reference rule of §4.2 pass 1).  A document that is
not valid JSON fails with `MalformedJson`; a JSON document is parsed with
the empty enclosing namespace. -/
def parseDoc : Document → Except ParseError Schema
  | .notJson _ => .error .malformedJson
  | .json v => parseSchemaF (JValue.fuelBound v) "" v

mutual
/-- Fullnames of the named types (records, enums, fixeds) declared in a
schema tree, nested declarations included (spec §4.2 pass 1 collects all
named-type declarations). -/
def declaredNames : Schema → List String
  | .fixed fn _ => [fn]
  | .enum fn _ _ => [fn]
  | .record fn fs => fn :: declaredNamesFields fs
  | .array i => declaredNames i
  | .map v => declaredNames v
  | .union bs => declaredNamesList bs
  | _ => []

/-- Declared fullnames of a list of schemas. -/
def declaredNamesList : List Schema → List String
  | [] => []
  | s :: ss => declaredNames s ++ declaredNamesList ss

/-- Declared fullnames inside a record's fields. -/
def declaredNamesFields : List Field → List String
  | [] => []
  | .mk _ _ t _ _ :: fs => declaredNames t ++ declaredNamesFields fs
end

mutual
/-- Fullnames referenced (as unresolved `Reference`s) anywhere in a schema
tree (spec §4.2 pass 2 walks every placeholder `Reference`). -/
def refNames : Schema → List String
  | .reference fn => [fn]
  | .record _ fs => refNamesFields fs
  | .array i => refNames i
  | .map v => refNames v
  | .union bs => refNamesList bs
  | _ => []

/-- Referenced fullnames of a list of schemas. -/
def refNamesList : List Schema → List String
  | [] => []
  | s :: ss => refNames s ++ refNamesList ss

/-- Referenced fullnames inside a record's fields. -/
def refNamesFields : List Field → List String
  | [] => []
  | .mk _ _ t _ _ :: fs => refNames t ++ refNamesFields fs
end

/-- Pass 1 of the resolver: parse every document independently, in order;
the first parse error aborts the whole set (spec §7: a single malformed
schema invalidates the whole set). -/
def parseAll : List Document → Except ParseError (List Schema)
  | [] => .ok []
  | d :: ds =>
    match parseDoc d with
    | .error e => .error e
    | .ok s =>
      match parseAll ds with
      | .error e => .error e
      | .ok ss => .ok (s :: ss)

/-- Modelled from the spec: `Schema::parse_list`, the two-pass resolver of
§4.2.  Pass 1 parses every document independently; the declared fullnames
of the whole set must be duplicate-free (`DuplicateName` anywhere in the
set is rejected); pass 2 then checks every `Reference` against the
collected declarations (`UnresolvedReference`).  Cyclic references stay
nominal lookups (spec §4.2: substitution is by registry lookup, not eager
cloning), so the returned top-level schemas keep their `Reference` nodes.
The library routine is not part of src/, hence this model. -/
def resolveDocs (docs : List Document) : Except ParseError (List Schema) :=
  match parseAll docs with
  | .error e => .error e
  | .ok parsed =>
    let declared := (parsed.map declaredNames).flatten
    match firstDup declared with
    | some n => .error (.duplicateName n)
    | none =>
      match (parsed.map refNames).flatten.find? (fun r => !(declared.contains r)) with
      | some r => .error (.unresolvedReference r)
      | none => .ok parsed

/-- File-system tree handed to `visit_dirs`: a file carries its name and
its content, a directory its name and entries.  Contents are `Document`s:
reading a file always succeeds in this model, so the
`expect("Unable to read file")` of `parse_schemas` (src/main.rs 61) has no
failing counterpart here. -/
inductive FsEntry where
  | file (name : String) (content : Document)
  | dir (name : String) (entries : List FsEntry)

mutual
/-- Embedding of `visit_dirs` (src/main.rs 36–55): a directory named
`.git` contributes nothing (checked on every directory, the root
included); other directories are visited recursively; files — including a
target that is itself a file, whatever its name — are collected in order
as (name, content) pairs. -/
def visit_dirs : FsEntry → List (String × Document)
  | .file n c => [(n, c)]
  | .dir n entries => if n == ".git" then [] else visitEntries entries

/-- Loop of `visit_dirs` over a directory's entries (src/main.rs 42–50):
plain files are pushed, subdirectories recurse through `visit_dirs`. -/
def visitEntries : List FsEntry → List (String × Document)
  | [] => []
  | .file n c :: rest => (n, c) :: visitEntries rest
  | .dir n es :: rest => visit_dirs (.dir n es) ++ visitEntries rest
end

/-- Rust `Path::extension()` of a file name: the portion after the last
dot, `none` when there is no dot or when the only dot is leading (a hidden
file such as `.avsc` has no extension). -/
def extension (nm : String) : Option String :=
  match splitOnDot nm.data with
  | [] => none
  | [_] => none
  | [[], _] => none
  | p :: ps => some (String.mk (List.getLastD (p :: ps) []))

/-- Embedding of `parse_schemas` (src/main.rs 57–66): keep exactly the
files whose extension is `avsc`, take their contents — the filter runs
before the read/map, so other files' contents are never touched — and
parse the contents as one document set.  The parser receives bare
contents: file names do not reach it. -/
def parse_schemas (files : List (String × Document)) :
    Except ParseError (List Schema) :=
  resolveDocs ((files.filter (fun f => extension f.1 == some "avsc")).map
    (fun f => f.2))

/-- Embedding of `validate_schemas` (src/main.rs 68–72): collect the files
under the target and parse them as one set, discarding the parsed
schemas. -/
def validate_schemas (path : FsEntry) : Except ParseError Unit :=
  (parse_schemas (visit_dirs path)).map (fun _ => ())

/-- Exit code of the `lint` command (src/main.rs 102–108): 1, after
printing the error as the diagnostic, when validation fails; 0 otherwise.
The diagnostic printed is exactly the `ParseError` value of
`validate_schemas`. -/
def lintExit (path : FsEntry) : Nat :=
  match validate_schemas path with
  | .ok _ => 0
  | .error _ => 1

/-- Structured errors of `compare_schemas` as a whole: a parse error of
either document set, or a comparison error from the loop. -/
inductive AppError where
  | parse (e : ParseError)
  | compat (e : CompatError)
deriving DecidableEq, Repr

/-- Embedding of `compare_schemas` (src/main.rs 74–96): collect and parse
the old and then the new document set — a parse failure is returned as a
structured error by `?` — and run the per-name comparison loop. -/
def compare_schemas (oldPath newPath : FsEntry) (mutualFlag : Bool) :
    Outcome AppError Unit :=
  match parse_schemas (visit_dirs oldPath) with
  | .error e => .err (.parse e)
  | .ok olds =>
    match parse_schemas (visit_dirs newPath) with
    | .error e => .err (.parse e)
    | .ok news =>
      match compareLoop olds news mutualFlag with
      | .ok _ => .ok ()
      | .err e => .err (.compat e)
      | .panicked m => .panicked m

/-- Document contents handed to the resolver for a lint or compat target:
contents of the collected files whose extension is `avsc`
(src/main.rs 58–62). -/
def lintDocs (t : FsEntry) : List Document :=
  ((visit_dirs t).filter (fun f => extension f.1 == some "avsc")).map
    (fun f => f.2)

/-- Success of resolving a document set (spec §4.2). -/
def resolveOk (docs : List Document) : Prop :=
  ∃ ss, resolveDocs docs = .ok ss

mutual
/-- Structural size of a file-system tree, used for induction. -/
def FsEntry.fuelBound : FsEntry → Nat
  | .file _ _ => 1
  | .dir _ es => FsEntry.fuelBoundEntries es + 1

/-- Structural size of a list of file-system entries. -/
def FsEntry.fuelBoundEntries : List FsEntry → Nat
  | [] => 1
  | e :: rest => FsEntry.fuelBound e + FsEntry.fuelBoundEntries rest + 1
end

/-- Specification-side description of the files the lint traversal should
gather: `InTree p nm c t` holds when the tree `t` contains, under the
chain `p` of directories none of which is named `.git`, a file named `nm`
with content `c`.  A target that is itself a file is reachable with the
empty chain whatever its name (src/main.rs 51–52 pushes a non-directory
target unconditionally). -/
inductive InTree : List String → String → Document → FsEntry → Prop where
  | here (nm : String) (c : Document) : InTree [] nm c (.file nm c)
  | child {p : List String} {nm : String} {c : Document} {e : FsEntry}
      (dn : String) (entries : List FsEntry) (hdn : dn ≠ ".git")
      (he : e ∈ entries) (h : InTree p nm c e) :
      InTree (dn :: p) nm c (.dir dn entries)

/-! Concrete instances used by the claims, taken from the repository's own
tests (src/main.rs `mod tests`). -/

/-- JSON document of the test record `my.namespace.test` with one `int`
field `myField` (src/main.rs test_schema_validation). -/
def intFieldDoc : JValue := .jobj
  [ ("name", .jstr "test"), ("namespace", .jstr "my.namespace"),
    ("type", .jstr "record"),
    ("fields", .jarr [ .jobj [("name", .jstr "myField"),
      ("doc", .jstr "just a field"), ("type", .jstr "int")] ]) ]

/-- The same record with the field promoted to `long`
(src/main.rs test_schema_read_compatibility). -/
def longFieldDoc : JValue := .jobj
  [ ("name", .jstr "test"), ("namespace", .jstr "my.namespace"),
    ("type", .jstr "record"),
    ("fields", .jarr [ .jobj [("name", .jstr "myField"),
      ("doc", .jstr "just a field"), ("type", .jstr "long")] ]) ]

/-- Parsed form of `intFieldDoc`. -/
def recInt : Schema :=
  .record "my.namespace.test" [.mk "myField" (some "just a field") .int none none]

/-- Parsed form of `longFieldDoc`. -/
def recLong : Schema :=
  .record "my.namespace.test" [.mk "myField" (some "just a field") .long none none]

/-- Record `A` with an `int` field `f`. -/
def recAInt : Schema := .record "A" [.mk "f" none .int none none]

/-- Record `A` with `f` changed to `string` (incompatible with `recAInt`). -/
def recAStr : Schema := .record "A" [.mk "f" none .string none none]

/-- Record `B` with an `int` field `g`. -/
def recBInt : Schema := .record "B" [.mk "g" none .int none none]

/-- Record `B` with `g` changed to `boolean` (incompatible with `recBInt`). -/
def recBBool : Schema := .record "B" [.mk "g" none .boolean none none]

/-- Record `B` with `g` promoted to `long` (compatible with `recBInt`). -/
def recBLong : Schema := .record "B" [.mk "g" none .long none none]

/-- Old compat target: one named record document. -/
def namedOldDir : FsEntry := .dir "old" [.file "a.avsc" (.json intFieldDoc)]

/-- New compat target whose document is the bare primitive `"int"` — a
well-formed schema document without a name. -/
def barePrimitiveDir : FsEntry := .dir "the-new" [.file "b.avsc" (.json (.jstr "int"))]

/-- A document whose text is not valid JSON. -/
def malformedDoc : Document := .notJson "this is not json"

/-- Lint target where file `a.avsc` is the malformed one. -/
def lintBadFirst : FsEntry :=
  .dir "t" [.file "a.avsc" malformedDoc, .file "b.avsc" (.json intFieldDoc)]

/-- Lint target where file `b.avsc` is the malformed one instead. -/
def lintBadSecond : FsEntry :=
  .dir "t" [.file "a.avsc" (.json intFieldDoc), .file "b.avsc" malformedDoc]

/-- Lint target with a single malformed document. -/
def lintBadSingle : FsEntry := .dir "t" [.file "a.avsc" malformedDoc]

/-- Lint target with a single well-formed document set. -/
def lintGood : FsEntry := .dir "t" [.file "a.avsc" (.json intFieldDoc)]

/-- Document of record `my.namespace.test` whose field `nest` references
the separately declared `my.namespace.nested`
(src/main.rs test_schema_compatibility_multiple_files). -/
def docTest : Document := .json (.jobj
  [ ("name", .jstr "test"), ("namespace", .jstr "my.namespace"),
    ("type", .jstr "record"),
    ("fields", .jarr [ .jobj [("name", .jstr "nest"),
      ("type", .jstr "my.namespace.nested")] ]) ])

/-- Document declaring `my.namespace.nested`. -/
def docNested : Document := .json (.jobj
  [ ("name", .jstr "nested"), ("namespace", .jstr "my.namespace"),
    ("type", .jstr "record"),
    ("fields", .jarr [ .jobj [("name", .jstr "myNestedField"),
      ("type", .jstr "int")] ]) ])

/-- A single-file target whose extension is not `avsc` and whose content
is not even valid JSON. -/
def nonAvscTarget : FsEntry := .file "data.txt" (.notJson "garbage")

/-! Helper lemmas about the matched-name lookup and the comparison loop. -/

theorem findMatch_ok_some {old n : Schema} {news : List Schema}
    (h : findMatch old news = .ok (some n)) :
    n ∈ news ∧ ∃ fn, old.name? = some fn ∧ n.name? = some fn := by
  induction news with
  | nil => simp [findMatch] at h
  | cons m rest ih =>
    cases hm : m.name? with
    | none => simp [findMatch, hm] at h
    | some nn =>
      cases ho : old.name? with
      | none => simp [findMatch, hm, ho] at h
      | some onm =>
        cases hbe : nn == onm with
        | true =>
          simp only [findMatch, hm, ho, hbe, if_true, Except.ok.injEq,
            Option.some.injEq] at h
          subst h
          exact ⟨List.mem_cons_self m rest, onm, rfl,
            by rw [hm, eq_of_beq hbe]⟩
        | false =>
          simp only [findMatch, hm, ho, hbe, Bool.false_eq_true,
            if_false] at h
          obtain ⟨hmem, fn, h1, h2⟩ := ih h
          exact ⟨List.mem_cons_of_mem m hmem, fn, ho ▸ h1, h2⟩

theorem findMatch_no_error {old : Schema} {news : List Schema}
    (hold : (Schema.name? old).isSome = true)
    (hnews : ∀ n ∈ news, (Schema.name? n).isSome = true) :
    ∀ msg, findMatch old news ≠ .error msg := by
  induction news with
  | nil => intro msg h; simp [findMatch] at h
  | cons m rest ih =>
    intro msg h
    obtain ⟨mn, hmn⟩ := Option.isSome_iff_exists.mp
      (hnews m (List.mem_cons_self m rest))
    obtain ⟨onn, honn⟩ := Option.isSome_iff_exists.mp hold
    simp only [findMatch, hmn, honn] at h
    cases hbe : mn == onn with
    | true => rw [hbe] at h; simp at h
    | false =>
      rw [hbe] at h
      simp only [Bool.false_eq_true, if_false] at h
      exact ih (fun n hn => hnews n (List.mem_cons_of_mem m hn)) msg h

theorem name_unique_of_nodup {news : List Schema} {n n' : Schema} {fn : String}
    (hnodup : (news.filterMap Schema.name?).Nodup)
    (hn : n ∈ news) (hn' : n' ∈ news)
    (h1 : n.name? = some fn) (h2 : n'.name? = some fn) : n = n' := by
  induction news with
  | nil => cases hn
  | cons m rest ih =>
    rcases List.mem_cons.mp hn with rfl | hnr
    · rcases List.mem_cons.mp hn' with rfl | hnr'
      · rfl
      · exfalso
        rw [List.filterMap_cons, h1] at hnodup
        exact (List.nodup_cons.mp hnodup).1
          (List.mem_filterMap.mpr ⟨n', hnr', h2⟩)
    · rcases List.mem_cons.mp hn' with rfl | hnr'
      · exfalso
        rw [List.filterMap_cons, h2] at hnodup
        exact (List.nodup_cons.mp hnodup).1
          (List.mem_filterMap.mpr ⟨n, hnr, h1⟩)
      · refine ih ?_ hnr hnr'
        rw [List.filterMap_cons] at hnodup
        cases hm : m.name? with
        | none => rwa [hm] at hnodup
        | some x => rw [hm] at hnodup; exact (List.nodup_cons.mp hnodup).2

theorem findMatch_finds {s n : Schema} {news : List Schema} {fn : String}
    (hnodup : (news.filterMap Schema.name?).Nodup)
    (hnamed : ∀ m ∈ news, (Schema.name? m).isSome = true)
    (hsname : s.name? = some fn) (hn : n ∈ news) (hnname : n.name? = some fn) :
    findMatch s news = .ok (some n) := by
  induction news with
  | nil => cases hn
  | cons m rest ih =>
    obtain ⟨mn, hmn⟩ := Option.isSome_iff_exists.mp
      (hnamed m (List.mem_cons_self m rest))
    cases hbe : mn == fn with
    | true =>
      simp only [findMatch, hmn, hsname, hbe, if_true]
      have hmname : m.name? = some fn := by rw [hmn, eq_of_beq hbe]
      have : m = n := name_unique_of_nodup hnodup
        (List.mem_cons_self m rest) hn hmname hnname
      rw [this]
    | false =>
      simp only [findMatch, hmn, hsname, hbe, Bool.false_eq_true, if_false]
      have hnr : n ∈ rest := by
        rcases List.mem_cons.mp hn with rfl | h
        · rw [hmn] at hnname
          injection hnname with heq
          rw [heq] at hbe
          simp at hbe
        · exact h
      have hrestnodup : (rest.filterMap Schema.name?).Nodup := by
        rw [List.filterMap_cons, hmn] at hnodup
        exact (List.nodup_cons.mp hnodup).2
      exact ih hrestnodup
        (fun x hx => hnamed x (List.mem_cons_of_mem m hx)) hnr

theorem parseAll_error_of_mem {d : Document} {docs : List Document}
    {e0 : ParseError} (hd : d ∈ docs) (he : parseDoc d = .error e0) :
    ∃ e, parseAll docs = .error e := by
  induction docs with
  | nil => cases hd
  | cons d' rest ih =>
    rcases List.mem_cons.mp hd with rfl | hmem
    · exact ⟨e0, by simp [parseAll, he]⟩
    · cases hp : parseDoc d' with
      | error e => exact ⟨e, by simp [parseAll, hp]⟩
      | ok s =>
        obtain ⟨e, hrec⟩ := ih hmem
        exact ⟨e, by simp [parseAll, hp, hrec]⟩

theorem resolveDocs_error_of_parseAll {docs : List Document} {e : ParseError}
    (h : parseAll docs = .error e) : resolveDocs docs = .error e := by
  simp [resolveDocs, h]

theorem firstDup_eq_none_iff (l : List String) :
    firstDup l = none ↔ l.Nodup := by
  induction l with
  | nil => simp [firstDup]
  | cons x xs ih =>
    cases hx : xs.contains x with
    | true =>
      simp only [firstDup, hx, if_true]
      exact iff_of_false (by simp)
        (fun hnd => (List.nodup_cons.mp hnd).1 (List.elem_iff.mp hx))
    | false =>
      have hnx : x ∉ xs := fun hmem => by
        have hc : xs.contains x = true := List.elem_iff.mpr hmem
        rw [hc] at hx
        exact Bool.noConfusion hx
      simp [firstDup, hx, ih, List.nodup_cons, hnx]

theorem parseAll_ok_iff (docs : List Document) :
    (∃ ss, parseAll docs = .ok ss) ↔ ∀ d ∈ docs, ∃ s, parseDoc d = .ok s := by
  induction docs with
  | nil => simp [parseAll]
  | cons d rest ih =>
    constructor
    · rintro ⟨ss, hss⟩
      cases hp : parseDoc d with
      | error e => simp [parseAll, hp] at hss
      | ok s =>
        cases hr : parseAll rest with
        | error e => simp [parseAll, hp, hr] at hss
        | ok ss' =>
          intro d' hd'
          rcases List.mem_cons.mp hd' with rfl | hmem
          · exact ⟨s, hp⟩
          · exact (ih.mp ⟨ss', hr⟩) d' hmem
    · intro hall
      obtain ⟨s, hp⟩ := hall d (List.mem_cons_self d rest)
      obtain ⟨ss, hr⟩ :=
        ih.mpr (fun d' hd' => hall d' (List.mem_cons_of_mem d hd'))
      exact ⟨s :: ss, by simp [parseAll, hp, hr]⟩

theorem parseAll_ok_eq {docs : List Document} {ss : List Schema}
    (h : parseAll docs = .ok ss) :
    ss = docs.filterMap (fun d => (parseDoc d).toOption) := by
  induction docs generalizing ss with
  | nil =>
    simp only [parseAll, Except.ok.injEq] at h
    simp [← h]
  | cons d rest ih =>
    cases hp : parseDoc d with
    | error e => simp [parseAll, hp] at h
    | ok s =>
      cases hr : parseAll rest with
      | error e => simp [parseAll, hp, hr] at h
      | ok ss' =>
        simp only [parseAll, hp, hr, Except.ok.injEq] at h
        subst h
        rw [List.filterMap_cons, hp]
        simp [Except.toOption, ih hr]

theorem resolveOk_of_perm {docs1 docs2 : List Document}
    (hp : docs1.Perm docs2) (h : resolveOk docs1) : resolveOk docs2 := by
  obtain ⟨ss, hss⟩ := h
  cases hpa : parseAll docs1 with
  | error e => rw [resolveDocs_error_of_parseAll hpa] at hss; cases hss
  | ok parsed =>
    simp only [resolveDocs, hpa] at hss
    cases hfd : firstDup ((parsed.map declaredNames).flatten) with
    | some n =>
      simp only [hfd] at hss
      exact Except.noConfusion hss
    | none =>
      cases hfind : ((parsed.map refNames).flatten.find?
          (fun r => !((parsed.map declaredNames).flatten.contains r))) with
      | some r =>
        simp only [hfd, hfind] at hss
        exact Except.noConfusion hss
      | none =>
        have hall2 : ∀ d ∈ docs2, ∃ s, parseDoc d = .ok s :=
          fun d hd => (parseAll_ok_iff docs1).mp ⟨parsed, hpa⟩ d
            (hp.mem_iff.mpr hd)
        obtain ⟨parsed2, hpa2⟩ := (parseAll_ok_iff docs2).mpr hall2
        have hpp : parsed.Perm parsed2 := by
          rw [parseAll_ok_eq hpa, parseAll_ok_eq hpa2]
          exact hp.filterMap _
        have hdp : ((parsed.map declaredNames).flatten).Perm
            ((parsed2.map declaredNames).flatten) :=
          (hpp.map declaredNames).flatten
        have hrp : ((parsed.map refNames).flatten).Perm
            ((parsed2.map refNames).flatten) :=
          (hpp.map refNames).flatten
        have hfd2 : firstDup ((parsed2.map declaredNames).flatten) = none :=
          (firstDup_eq_none_iff _).mpr
            (hdp.nodup_iff.mp ((firstDup_eq_none_iff _).mp hfd))
        have hfind2 : ((parsed2.map refNames).flatten.find?
            (fun r => !((parsed2.map declaredNames).flatten.contains r))) =
              none := by
          rw [List.find?_eq_none]
          intro r hr
          have hr1 := hrp.mem_iff.mpr hr
          have hcont1 := List.find?_eq_none.mp hfind r hr1
          simp only [Bool.not_eq_true', Bool.not_eq_false] at hcont1 ⊢
          exact List.elem_iff.mpr
            (hdp.mem_iff.mp (List.elem_iff.mp hcont1))
        exact ⟨parsed2, by simp only [resolveDocs, hpa2, hfd2, hfind2]⟩

/-! Claim theorems. -/

/-- C7: resolving a document set is order-independent for
success/failure — for permuted document lists, resolution succeeds on one
order iff it succeeds on the other, even with forward references across
documents. -/
theorem resolve_order_independent (docs1 docs2 : List Document)
    (h : docs1.Perm docs2) : resolveOk docs1 ↔ resolveOk docs2 :=
  ⟨resolveOk_of_perm h, resolveOk_of_perm h.symm⟩

/-- Witness for `resolve_order_independent` at a concrete input: `docTest`
references the type declared by `docNested`, and both orders — the
forward-reference order included — resolve successfully. -/
theorem resolve_order_witness :
    (([docTest, docNested] : List Document).Perm [docNested, docTest]) ∧
    (resolveOk [docTest, docNested] ↔ resolveOk [docNested, docTest]) ∧
    resolveOk [docTest, docNested] :=
  ⟨List.Perm.swap docNested docTest [],
   resolve_order_independent [docTest, docNested] [docNested, docTest]
     (List.Perm.swap docNested docTest []),
   ⟨_, rfl⟩⟩

/-- C6 (amended): lint on a target whose collected `avsc` documents
include one that is not valid JSON exits 1; the diagnostic is computed
from the ordered document contents alone — targets with the same collected
contents produce the same diagnostic, so it does not name the offending
file — and the well-formed set `lintGood` exits 0. -/
theorem lint_malformed_exit_content_only_diag :
    (∀ t s, Document.notJson s ∈ lintDocs t → lintExit t = 1) ∧
    (∀ t1 t2, lintDocs t1 = lintDocs t2 →
      validate_schemas t1 = validate_schemas t2) ∧
    lintExit lintGood = 0 := by
  refine ⟨?_, ?_, by decide⟩
  · intro t s hmem
    obtain ⟨e, he⟩ := parseAll_error_of_mem hmem
      (rfl : parseDoc (.notJson s) = .error .malformedJson)
    have hv : validate_schemas t = .error e := by
      show (resolveDocs (lintDocs t)).map (fun _ => ()) = .error e
      rw [resolveDocs_error_of_parseAll he]
      rfl
    simp [lintExit, hv]
  · intro t1 t2 heq
    show (resolveDocs (lintDocs t1)).map (fun _ => ()) =
      (resolveDocs (lintDocs t2)).map (fun _ => ())
    rw [heq]

/-- C6 is false as stated: swapping which of the two files holds the
malformed content leaves the emitted diagnostic identical, so the
diagnostic cannot identify the offending file; both runs still exit 1. -/
theorem lint_diag_no_file_cex :
    validate_schemas lintBadFirst = validate_schemas lintBadSecond ∧
    validate_schemas lintBadFirst = .error .malformedJson ∧
    lintExit lintBadFirst = 1 ∧ lintExit lintBadSecond = 1 :=
  ⟨rfl, rfl, by decide, by decide⟩

/-- Witness for `lint_malformed_exit_content_only_diag` at concrete
inputs. -/
theorem lint_malformed_witness :
    lintExit lintBadSingle = 1 ∧ lintExit lintGood = 0 :=
  ⟨lint_malformed_exit_content_only_diag.1 lintBadSingle "this is not json"
     (List.mem_singleton_self (Document.notJson "this is not json")),
   lint_malformed_exit_content_only_diag.2.2⟩

/-- C1: for a matched record pair whose only change is the field's numeric
type, promoting `int` (old) to `long` (new) passes the one-way
(`can_read`, mutual = false) check, while `long` (old) to `int` (new)
fails it with a type mismatch on the field. -/
theorem int_to_long_promotion_one_way :
    parseDoc (.json intFieldDoc) = .ok recInt ∧
    parseDoc (.json longFieldDoc) = .ok recLong ∧
    compareLoop [recInt] [recLong] false = .ok () ∧
    compareLoop [recLong] [recInt] false =
      .err (.incompatible ⟨["myField"], .typeMismatch "long" "int"⟩) :=
  ⟨rfl, rfl, by decide, by decide⟩

/-- C2 (amended): the comparison loop aborts at the first incompatible
matched pair — whenever the head schema's matched check fails, the result
is that single error, whatever the remaining schemas are. -/
theorem first_incompatibility_aborts (s n : Schema) (rest news : List Schema)
    (mutualFlag : Bool) (inc : Incompat)
    (hfm : findMatch s news = .ok (some n))
    (hfail : (if mutualFlag then mutualRead s n else canRead s n) = some inc) :
    compareLoop (s :: rest) news mutualFlag = .err (.incompatible inc) := by
  simp only [compareLoop, hfm, hfail]

/-- C2 is false as stated: with two incompatible matched names (`A` and
`B`), the comparison returns the same single error as when only `A` is
incompatible — the result is the first pair's error alone, so the second
incompatible name is never reported. -/
theorem errors_not_collected_cex :
    canRead recAInt recAStr ≠ none ∧
    canRead recBInt recBBool ≠ none ∧
    canRead recBInt recBLong = none ∧
    compareLoop [recAInt, recBInt] [recAStr, recBBool] false =
      compareLoop [recAInt, recBInt] [recAStr, recBLong] false ∧
    compareLoop [recAInt, recBInt] [recAStr, recBBool] false =
      .err (.incompatible ⟨["f"], .typeMismatch "int" "string"⟩) :=
  ⟨by decide, by decide, by decide, by decide, by decide⟩

/-- Witness for `first_incompatibility_aborts` at a concrete input. -/
theorem first_incompatibility_witness :
    compareLoop [recAInt, recBInt] [recAStr, recBBool] false =
      .err (.incompatible ⟨["f"], .typeMismatch "int" "string"⟩) :=
  first_incompatibility_aborts recAInt recAStr [recBInt] [recAStr, recBBool]
    false ⟨["f"], .typeMismatch "int" "string"⟩ rfl rfl

/-- C3: a named schema of the old set whose fullname no schema of the new
set carries makes the compat check fail — the loop either bails out with
the removal, fails earlier, or panics, but never succeeds — whatever the
structure of the remaining schemas. -/
theorem schema_removal_always_fails (olds news : List Schema)
    (mutualFlag : Bool) (s : Schema) (fn : String)
    (hname : s.name? = some fn)
    (habs : ∀ n ∈ news, n.name? ≠ some fn) :
    s ∈ olds → compareLoop olds news mutualFlag ≠ .ok () := by
  induction olds with
  | nil => intro hs; cases hs
  | cons head rest ih =>
    intro hs
    rw [compareLoop]
    rcases List.mem_cons.mp hs with rfl | hmem
    · cases hfm : findMatch s news with
      | error msg => simp
      | ok o =>
        cases o with
        | none => simp
        | some n =>
          obtain ⟨hn, fn', ho, hnn⟩ := findMatch_ok_some hfm
          rw [hname] at ho
          cases ho
          exact absurd hnn (habs n hn)
    · cases hfm : findMatch head news with
      | error msg => simp [hfm]
      | ok o =>
        cases o with
        | none => simp [hfm]
        | some n =>
          cases hc : (if mutualFlag then mutualRead head n else canRead head n) with
          | some inc => simp [hfm, hc]
          | none => simpa [hfm, hc] using ih hmem

/-- Witness for `schema_removal_always_fails` at a concrete input: the
only old name is absent from an empty new set, and the loop indeed reports
the removal. -/
theorem schema_removal_witness :
    compareLoop [recInt] [] false ≠ .ok () ∧
    compareLoop [recInt] [] false =
      .err (.removed (some "my.namespace.test")) :=
  ⟨schema_removal_always_fails [recInt] [] false recInt "my.namespace.test"
     rfl (fun n hn => absurd hn (List.not_mem_nil n))
     (List.mem_singleton_self recInt),
   by decide⟩

/-- C4: names present only in the new set never affect the verdict — when
the new set's names are distinct, every schema of both sets is named, and
every old schema has a same-named compatible counterpart in the new set,
the compat check succeeds, however many extra names the new set
declares. -/
theorem pure_additions_never_break (olds news : List Schema)
    (mutualFlag : Bool)
    (hnodup : (news.filterMap Schema.name?).Nodup)
    (hnamed : ∀ n ∈ news, (Schema.name? n).isSome = true)
    (hcompat : ∀ s ∈ olds, ∃ fn n, s.name? = some fn ∧ n ∈ news ∧
      n.name? = some fn ∧
      (if mutualFlag then mutualRead s n else canRead s n) = none) :
    compareLoop olds news mutualFlag = .ok () := by
  induction olds with
  | nil => rfl
  | cons s rest ih =>
    obtain ⟨fn, n, hsname, hn, hnname, hok⟩ :=
      hcompat s (List.mem_cons_self s rest)
    have hfm : findMatch s news = .ok (some n) :=
      findMatch_finds hnodup hnamed hsname hn hnname
    simp only [compareLoop, hfm, hok]
    exact ih (fun x hx => hcompat x (List.mem_cons_of_mem s hx))

/-- Witness for `pure_additions_never_break` at a concrete input: the new
set declares the extra name `A` on top of the matched counterpart. -/
theorem pure_additions_witness :
    (([recLong, recAInt] : List Schema).filterMap Schema.name?).Nodup ∧
    compareLoop [recInt] [recLong, recAInt] false = .ok () :=
  ⟨by decide,
   pure_additions_never_break [recInt] [recLong, recAInt] false (by decide)
     (by
       intro n hn
       rcases List.mem_cons.mp hn with rfl | hn
       · rfl
       · rcases List.mem_singleton.mp hn with rfl
         rfl)
     (by
       intro s hs
       rcases List.mem_singleton.mp hs with rfl
       exact ⟨"my.namespace.test", recLong, rfl,
         List.mem_cons_self recLong [recAInt], rfl, by decide⟩)⟩

/-- C5 (amended): parse and compatibility failures come back as structured
errors, and the comparison loop cannot panic as long as every schema of
both resolved sets is named; a nameless schema is what makes the `expect`
calls of the matched-name lookup reachable. -/
theorem no_panic_when_all_named (olds news : List Schema) (mutualFlag : Bool)
    (holds : ∀ s ∈ olds, (Schema.name? s).isSome = true)
    (hnews : ∀ n ∈ news, (Schema.name? n).isSome = true) :
    ∀ msg, compareLoop olds news mutualFlag ≠ .panicked msg := by
  induction olds with
  | nil => intro msg h; cases h
  | cons head rest ih =>
    intro msg h
    cases hfm : findMatch head news with
    | error m =>
      exact findMatch_no_error (holds head (List.mem_cons_self head rest))
        hnews m hfm
    | ok o =>
      cases o with
      | none => simp [compareLoop, hfm] at h
      | some n =>
        cases hc : (if mutualFlag then mutualRead head n else canRead head n) with
        | some inc => simp [compareLoop, hfm, hc] at h
        | none =>
          simp only [compareLoop, hfm, hc] at h
          exact ih (fun x hx => holds x (List.mem_cons_of_mem head hx)) msg h

/-- C5 is false as stated: a well-formed input — an old set with one named
record and a new set whose only document is the bare primitive `"int"`, a
schema without a name — makes `compare_schemas` panic instead of
returning a structured error. -/
theorem panic_on_unnamed_schema_cex :
    compare_schemas namedOldDir barePrimitiveDir false =
      .panicked "no name on new schema" := by decide

/-- Witness for `no_panic_when_all_named` at a concrete input. -/
theorem no_panic_witness :
    compareLoop [recLong] [recInt] false ≠ .panicked "no name on new schema" :=
  no_panic_when_all_named [recLong] [recInt] false
    (by intro s hs; rcases List.mem_singleton.mp hs with rfl; rfl)
    (by intro n hn; rcases List.mem_singleton.mp hn with rfl; rfl)
    "no name on new schema"

/-- C9: the one-way check passes the old schema as the writer and the new
schema as the reader: for a matched named pair the loop's verdict is
exactly `canRead old new`, and the direction is observable — a reader
`long` reads a writer `int`, but not conversely, so old `int` / new
`long` passes while old `long` / new `int` fails. -/
theorem one_way_old_writer_new_reader (o n : Schema) (fn : String)
    (ho : o.name? = some fn) (hn : n.name? = some fn) :
    (compareLoop [o] [n] false =
      match canRead o n with
      | none => .ok ()
      | some inc => .err (.incompatible inc)) ∧
    canRead Schema.int Schema.long = none ∧
    canRead Schema.long Schema.int = some ⟨[], .typeMismatch "long" "int"⟩ := by
  refine ⟨?_, by decide, by decide⟩
  have hfm : findMatch o [n] = .ok (some n) := by
    simp [findMatch, hn, ho]
  cases hc : canRead o n with
  | none => simp [compareLoop, hfm, hc]
  | some inc => simp [compareLoop, hfm, hc]

/-- Witness for `one_way_old_writer_new_reader` at a concrete input. -/
theorem one_way_witness :
    (compareLoop [recInt] [recLong] false =
      match canRead recInt recLong with
      | none => .ok ()
      | some inc => .err (.incompatible inc)) ∧
    canRead Schema.int Schema.long = none ∧
    canRead Schema.long Schema.int = some ⟨[], .typeMismatch "long" "int"⟩ :=
  one_way_old_writer_new_reader recInt recLong "my.namespace.test" rfl rfl

theorem FsEntry.fuelBound_pos (t : FsEntry) : 1 ≤ t.fuelBound := by
  cases t with
  | file n c => simp [FsEntry.fuelBound]
  | dir n es => simp [FsEntry.fuelBound]

theorem FsEntry.mem_fuelBound_lt {e : FsEntry} {es : List FsEntry}
    (h : e ∈ es) : e.fuelBound < FsEntry.fuelBoundEntries es := by
  induction es with
  | nil => cases h
  | cons x rest ih =>
    rw [FsEntry.fuelBoundEntries]
    rcases List.mem_cons.mp h with rfl | hm
    · omega
    · have := ih hm; omega

theorem FsEntry.strongInduction (motive : FsEntry → Prop)
    (hfile : ∀ n c, motive (.file n c))
    (hdir : ∀ n es, (∀ e ∈ es, motive e) → motive (.dir n es)) :
    ∀ t, motive t := by
  have key : ∀ k t, FsEntry.fuelBound t ≤ k → motive t := by
    intro k
    induction k with
    | zero =>
      intro t ht
      have := FsEntry.fuelBound_pos t
      omega
    | succ k ih =>
      intro t ht
      cases t with
      | file n c => exact hfile n c
      | dir n es =>
        refine hdir n es (fun e he => ih e ?_)
        have h1 := FsEntry.mem_fuelBound_lt he
        rw [FsEntry.fuelBound] at ht
        omega
  exact fun t => key (FsEntry.fuelBound t) t (Nat.le_refl _)

theorem mem_visitEntries {nm : String} {c : Document} (es : List FsEntry) :
    (nm, c) ∈ visitEntries es ↔ ∃ e ∈ es, (nm, c) ∈ visit_dirs e := by
  induction es with
  | nil => simp [visitEntries]
  | cons e rest ih =>
    cases e with
    | file n' c' =>
      simp only [visitEntries, List.mem_cons, ih]
      constructor
      · rintro (h | ⟨e, he, hm⟩)
        · exact ⟨.file n' c', Or.inl rfl, by simp [visit_dirs, h]⟩
        · exact ⟨e, Or.inr he, hm⟩
      · rintro ⟨e, (rfl | he), hm⟩
        · simp only [visit_dirs, List.mem_singleton] at hm
          exact Or.inl hm
        · exact Or.inr ⟨e, he, hm⟩
    | dir n' es' =>
      simp only [visitEntries, List.mem_append, ih]
      constructor
      · rintro (h | ⟨e, he, hm⟩)
        · exact ⟨.dir n' es', List.mem_cons_self _ _, h⟩
        · exact ⟨e, List.mem_cons_of_mem _ he, hm⟩
      · rintro ⟨e, he, hm⟩
        rcases List.mem_cons.mp he with rfl | he
        · exact Or.inl hm
        · exact Or.inr ⟨e, he, hm⟩

theorem mem_visit_dirs (t : FsEntry) : ∀ (nm : String) (c : Document),
    (nm, c) ∈ visit_dirs t ↔ ∃ p, InTree p nm c t := by
  induction t using FsEntry.strongInduction with
  | hfile n c0 =>
    intro nm c
    simp only [visit_dirs, List.mem_singleton, Prod.mk.injEq]
    constructor
    · rintro ⟨rfl, rfl⟩
      exact ⟨[], InTree.here nm c⟩
    · rintro ⟨p, h⟩
      cases h
      exact ⟨rfl, rfl⟩
  | hdir n es ih =>
    intro nm c
    cases hgit : n == ".git" with
    | true =>
      have hn : n = ".git" := eq_of_beq hgit
      simp only [visit_dirs, hgit, if_true, List.not_mem_nil, false_iff]
      rintro ⟨p, h⟩
      cases h with
      | child dn entries hdn he hin => exact hdn hn
    | false =>
      have hn : n ≠ ".git" := by
        intro h
        rw [h] at hgit
        simp at hgit
      simp only [visit_dirs, hgit, Bool.false_eq_true, if_false,
        mem_visitEntries]
      constructor
      · rintro ⟨e, he, hm⟩
        obtain ⟨p, hp⟩ := (ih e he nm c).mp hm
        exact ⟨n :: p, InTree.child n es hn he hp⟩
      · rintro ⟨p, hp⟩
        cases hp with
        | child dn entries hdn he hin =>
          exact ⟨_, he, (ih _ he nm c).mpr ⟨_, hin⟩⟩

/-- C8: the lint file collection gathers exactly the files not lying
inside a directory named `.git` (at any depth, the target itself
included), and exactly the collected files with extension `avsc` make up
the document set handed to the parser. -/
theorem lint_collection_spec (t : FsEntry) :
    (∀ nm c, (nm, c) ∈ visit_dirs t ↔ ∃ p, InTree p nm c t) ∧
    (∀ c, c ∈ lintDocs t ↔
      ∃ p nm, InTree p nm c t ∧ extension nm = some "avsc") ∧
    validate_schemas t = (resolveDocs (lintDocs t)).map (fun _ => ()) := by
  refine ⟨fun nm c => mem_visit_dirs t nm c, ?_, rfl⟩
  intro c
  simp only [lintDocs, List.mem_map, List.mem_filter]
  constructor
  · rintro ⟨⟨nm, c'⟩, ⟨hmem, hext⟩, rfl⟩
    obtain ⟨p, hp⟩ := (mem_visit_dirs t nm c').mp hmem
    exact ⟨p, nm, hp, by simpa using hext⟩
  · rintro ⟨p, nm, hp, hext⟩
    exact ⟨(nm, c), ⟨(mem_visit_dirs t nm c).mpr ⟨p, hp⟩, by simp [hext]⟩, rfl⟩

/-- C10: lint succeeds on every target with no `avsc`-extension file —
whatever the other files contain, they are filtered out before parsing and
the empty document set resolves successfully. -/
theorem lint_ok_without_avsc (t : FsEntry)
    (h : ∀ f ∈ visit_dirs t, extension f.1 ≠ some "avsc") :
    validate_schemas t = .ok () ∧ lintExit t = 0 := by
  have hdocs : lintDocs t = [] := by
    rw [lintDocs, List.filter_eq_nil_iff.mpr ?_]
    · rfl
    · intro f hf
      simpa using h f hf
  have hv : validate_schemas t = .ok () := by
    show (resolveDocs (lintDocs t)).map (fun _ => ()) = .ok ()
    rw [hdocs]
    rfl
  refine ⟨hv, ?_⟩
  rw [lintExit, hv]

/-- Witness for `lint_ok_without_avsc` at a concrete input: a single-file
target whose extension is `txt` and whose content is not even valid
JSON. -/
theorem lint_ok_without_avsc_witness :
    validate_schemas nonAvscTarget = .ok () ∧ lintExit nonAvscTarget = 0 :=
  lint_ok_without_avsc nonAvscTarget (by
    intro f hf
    have heq : f = ("data.txt", Document.notJson "garbage") :=
      List.mem_singleton.mp hf
    rw [heq]
    decide)

end Avrodisiac
